import Mathlib

/-!
Shallow embedding of the package-manifest schema declared in
`src/package.d.ts` (namespace `Package`), together with the validator the
specification describes: a pure function from a candidate JSON document to
a list of `ShapeViolation`s, one per non-conforming recognized field.

Each TypeScript type of the source is translated to a Bool-valued
conformance predicate on JSON values:
  - a closed interface (no index signature) requires every present key to
    be one of the declared keys and its value to match the declared type;
  - an open interface (with an index signature) admits arbitrary keys but
    constrains every value by the index-signature type;
  - unions are disjunctions of the member predicates;
  - the TypeScript `object` type admits any non-primitive value, which in
    JSON means objects and arrays.
-/

namespace Package

/-- A JSON value: the candidate documents fed to the validator. -/
inductive JsonValue where
  | null
  | bool (b : Bool)
  | num (n : Int)
  | str (s : String)
  | arr (elems : List JsonValue)
  | obj (fields : List (String × JsonValue))

/-- First binding of a key in an object field list, if any. -/
def lookupField : List (String × JsonValue) → String → Option JsonValue
  | [], _ => none
  | (k, v) :: rest, key => if key = k then some v else lookupField rest key

/-- The value is a JSON string. -/
def isStr : JsonValue → Bool
  | .str _ => true
  | _ => false

/-- The value is a JSON boolean. -/
def isBool : JsonValue → Bool
  | .bool _ => true
  | _ => false

/-- The value is an array of strings (TypeScript `string[]`). -/
def isStrArray : JsonValue → Bool
  | .arr es => es.all isStr
  | _ => false

/-- The value is non-primitive (TypeScript `object`: objects and arrays). -/
def isObjectLike : JsonValue → Bool
  | .obj _ => true
  | .arr _ => true
  | _ => false

/-- The field list has the key bound to a string. -/
def hasStringField (fs : List (String × JsonValue)) (key : String) : Bool :=
  match lookupField fs key with
  | some (.str _) => true
  | _ => false

/-- The key, when present in the field list, is bound to a string. -/
def optStringField (fs : List (String × JsonValue)) (key : String) : Bool :=
  match lookupField fs key with
  | none => true
  | some (.str _) => true
  | some _ => false

/-- `Package.Person`: a string, or a closed record with required `name`
and optional `url`, `email`, all strings. -/
def isPerson : JsonValue → Bool
  | .str _ => true
  | .obj fs =>
      fs.all (fun p => p.1 ∈ ["name", "url", "email"]) &&
      hasStringField fs "name" &&
      optStringField fs "url" &&
      optStringField fs "email"
  | _ => false

/-- `Package.Dependency`: an open record mapping package names to
version-range strings. -/
def isDependency : JsonValue → Bool
  | .obj fs => fs.all (fun p => isStr p.2)
  | _ => false

/-- `Package.PackageExportsEntryPath`: a module path or null. -/
def isPackageExportsEntryPath : JsonValue → Bool
  | .str _ => true
  | .null => true
  | _ => false

/-- The condition names declared by `Package.PackageExportsEntryObject`. -/
def exportsConditionKeys : List String :=
  ["require", "import", "node", "default", "types"]

mutual

/-- `Package.PackageExportsEntry`: a path, null, or a conditional record. -/
def isPackageExportsEntry : JsonValue → Bool
  | .str _ => true
  | .null => true
  | .obj fs => isPackageExportsEntryObjectFields fs
  | _ => false

/-- Field-list form of `Package.PackageExportsEntryObject`: every key is a
condition name and its value is an entry or a fallback array. -/
def isPackageExportsEntryObjectFields : List (String × JsonValue) → Bool
  | [] => true
  | (k, v) :: rest =>
      decide (k ∈ exportsConditionKeys) &&
      isPackageExportsEntryOrFallback v &&
      isPackageExportsEntryObjectFields rest

/-- `Package.PackageExportsEntryOrFallback`: an entry, or an array of
entries (`Package.PackageExportsFallback`). -/
def isPackageExportsEntryOrFallback : JsonValue → Bool
  | .str _ => true
  | .null => true
  | .obj fs => isPackageExportsEntryObjectFields fs
  | .arr es => isPackageExportsFallbackElems es
  | _ => false

/-- Elements of a `Package.PackageExportsFallback` array: each one is a
`PackageExportsEntry` (a path, null, or a conditional record). -/
def isPackageExportsFallbackElems : List JsonValue → Bool
  | [] => true
  | e :: rest => isPackageExportsEntry e && isPackageExportsFallbackElems rest

end

/-- Values of the index-signature record alternative of the `exports`
field: every value is an entry or fallback, keys are arbitrary sub-paths. -/
def isExportsModuleMapFields : List (String × JsonValue) → Bool
  | [] => true
  | (_, v) :: rest =>
      isPackageExportsEntryOrFallback v && isExportsModuleMapFields rest

/-- The `exports` field union: a path, null, a sub-path map, a conditional
record, or a fallback array. -/
def isExports : JsonValue → Bool
  | .str _ => true
  | .null => true
  | .obj fs => isExportsModuleMapFields fs || isPackageExportsEntryObjectFields fs
  | .arr es => isPackageExportsFallbackElems es
  | _ => false

/-- `Package.fundingWay`: a closed record with required `url` and optional
`type`, both strings. -/
def isFundingWay : JsonValue → Bool
  | .obj fs =>
      fs.all (fun p => p.1 ∈ ["url", "type"]) &&
      hasStringField fs "url" &&
      optStringField fs "type"
  | _ => false

/-- The `bugs` field: a string, or a closed record with required `url`
and `email`, both strings. -/
def isBugs : JsonValue → Bool
  | .str _ => true
  | .obj fs =>
      fs.all (fun p => p.1 ∈ ["url", "email"]) &&
      hasStringField fs "url" &&
      hasStringField fs "email"
  | _ => false

/-- The `author` field: a string or a `Person` (whose union already
contains the string alternative). -/
def isAuthor (v : JsonValue) : Bool :=
  isStr v || isPerson v

/-- An array each of whose elements is a `Person` (`contributors`,
`maintainers`). -/
def isPersonArray : JsonValue → Bool
  | .arr es => es.all isPerson
  | _ => false

/-- The `bin` field: a string or any object. -/
def isBin (v : JsonValue) : Bool :=
  isStr v || isObjectLike v

/-- The `typesVersions` field: an open record whose values are string
arrays. -/
def isTypesVersions : JsonValue → Bool
  | .obj fs => fs.all (fun p => isStrArray p.2)
  | _ => false

/-- The `man` field: a single string or an array of strings. -/
def isMan (v : JsonValue) : Bool :=
  isStr v || isStrArray v

/-- The `directories` field: a closed record of optional string entries
`bin`, `doc`, `example`, `lib`, `man`, `test`. -/
def isDirectories : JsonValue → Bool
  | .obj fs =>
      fs.all (fun p =>
        decide (p.1 ∈ ["bin", "doc", "example", "lib", "man", "test"]) && isStr p.2)
  | _ => false

/-- The `repository` field: a string, or a closed record of optional
string entries `type`, `url`, `directory`. -/
def isRepository : JsonValue → Bool
  | .str _ => true
  | .obj fs =>
      fs.all (fun p => decide (p.1 ∈ ["type", "url", "directory"]) && isStr p.2)
  | _ => false

/-- The `funding` field: a string, an array of strings, a `fundingWay`,
or an array of `fundingWay` records. -/
def isFunding : JsonValue → Bool
  | .str _ => true
  | .arr es => es.all isStr || es.all isFundingWay
  | v => isFundingWay v

/-- The `scripts` field: recognized lifecycle keys and the index
signature all constrain values to strings, so every value must be a
string. -/
def isScripts : JsonValue → Bool
  | .obj fs => fs.all (fun p => isStr p.2)
  | _ => false

/-- One entry of `peerDependenciesMeta`: a record with required boolean
`optional`, every other value a string or a boolean per the index
signature. -/
def isPeerDependenciesMetaEntry : JsonValue → Bool
  | .obj fs =>
      (match lookupField fs "optional" with
       | some (.bool _) => true
       | _ => false) &&
      fs.all (fun p => isStr p.2 || isBool p.2)
  | _ => false

/-- The `peerDependenciesMeta` field: an open record of metadata entries. -/
def isPeerDependenciesMeta : JsonValue → Bool
  | .obj fs => fs.all (fun p => isPeerDependenciesMetaEntry p.2)
  | _ => false

/-- The `bundledDependencies` field: a boolean or an array of strings. -/
def isBundledDependencies (v : JsonValue) : Bool :=
  isBool v || isStrArray v

/-- The `engines` field: a record with required string `node` and, by the
index signature, every value a string. -/
def isEngines : JsonValue → Bool
  | .obj fs => hasStringField fs "node" && fs.all (fun p => isStr p.2)
  | _ => false

/-- The `private` field: a boolean or a string. -/
def isPrivate (v : JsonValue) : Bool :=
  isBool v || isStr v

/-- The `publishConfig` field: recognized keys `access`, `tag`,
`registry` and the index signature all constrain values to strings. -/
def isPublishConfig : JsonValue → Bool
  | .obj fs => fs.all (fun p => isStr p.2)
  | _ => false

/-- The `dist` field: a closed record of optional string entries
`shasum`, `tarball`. -/
def isDist : JsonValue → Bool
  | .obj fs => fs.all (fun p => decide (p.1 ∈ ["shasum", "tarball"]) && isStr p.2)
  | _ => false

/-- The `esnext` field: a string, or a record whose recognized keys
`main`, `browser` and index signature all constrain values to strings. -/
def isEsnext : JsonValue → Bool
  | .str _ => true
  | .obj fs => fs.all (fun p => isStr p.2)
  | _ => false

/-- The `workspaces` field: an array of strings, or a closed record of
optional string-array entries `packages`, `nohoist`. -/
def isWorkspaces : JsonValue → Bool
  | .arr es => es.all isStr
  | .obj fs =>
      fs.all (fun p => decide (p.1 ∈ ["packages", "nohoist"]) && isStrArray p.2)
  | _ => false

/-- The `jspm` field has TypeScript type `any`: every value conforms. -/
def isJspm (_ : JsonValue) : Bool := true

/-- The single error kind of the validator: a field path and a
description of the expected shape. -/
structure ShapeViolation where
  path : List String
  expected : String
deriving DecidableEq, Repr

/-- Violation reported when a required top-level string field is missing. -/
def missingViolation (key : String) : ShapeViolation :=
  ⟨[key], "required string"⟩

/-- Check a required string-typed top-level field (`name`, `version`). -/
def checkRequiredString (fs : List (String × JsonValue)) (key : String) :
    List ShapeViolation :=
  match lookupField fs key with
  | none => [missingViolation key]
  | some (.str _) => []
  | some _ => [⟨[key], "string"⟩]

/-- Check an optional top-level field against its conformance predicate:
an absent field contributes nothing, a present non-conforming value one
violation at the field path. -/
def checkOpt (fs : List (String × JsonValue)) (key : String)
    (p : JsonValue → Bool) (expected : String) : List ShapeViolation :=
  match lookupField fs key with
  | none => []
  | some v => if p v then [] else [⟨[key], expected⟩]

/-- Every top-level key declared by `Package.Json`. -/
def recognizedKeys : List String :=
  ["name", "version", "description", "keywords", "homepage", "bugs",
   "license", "author", "contributors", "maintainers", "files", "main",
   "exports", "bin", "type", "types", "typings", "typesVersions", "man",
   "directories", "repository", "funding", "scripts", "config",
   "dependencies", "devDependencies", "optionalDependencies",
   "peerDependencies", "peerDependenciesMeta", "bundledDependencies",
   "resolutions", "overrides", "packageManager", "engines",
   "engineStrict", "os", "cpu", "private", "publishConfig", "dist",
   "readme", "module", "esnext", "workspaces", "jspm", "eslintConfig",
   "prettier", "stylelint", "ava", "release", "jscpd"]

/-- `Package.Json` declares no index signature, so a key outside the
declared ones is a violation. -/
def scanUnknown : List (String × JsonValue) → List ShapeViolation
  | [] => []
  | (k, _) :: rest =>
      (if k ∈ recognizedKeys then [] else [⟨[k], "recognized field"⟩]) ++
      scanUnknown rest

/-- Violations of all the optional fields of `Package.Json`, in
declaration order, followed by the unknown-key scan. -/
def validateOptional (fs : List (String × JsonValue)) : List ShapeViolation :=
  checkOpt fs "description" isStr "string" ++
  checkOpt fs "keywords" isStrArray "array of string" ++
  checkOpt fs "homepage" isStr "string" ++
  checkOpt fs "bugs" isBugs "string or record with url and email" ++
  checkOpt fs "license" isStr "string" ++
  checkOpt fs "author" isAuthor "string or person record" ++
  checkOpt fs "contributors" isPersonArray "array of person" ++
  checkOpt fs "maintainers" isPersonArray "array of person" ++
  checkOpt fs "files" isStrArray "array of string" ++
  checkOpt fs "main" isStr "string" ++
  checkOpt fs "exports" isExports "exports entry" ++
  checkOpt fs "bin" isBin "string or object" ++
  checkOpt fs "type" isStr "string" ++
  checkOpt fs "types" isStr "string" ++
  checkOpt fs "typings" isStr "string" ++
  checkOpt fs "typesVersions" isTypesVersions "record of string arrays" ++
  checkOpt fs "man" isMan "string or array of string" ++
  checkOpt fs "directories" isDirectories "directories record" ++
  checkOpt fs "repository" isRepository "string or repository record" ++
  checkOpt fs "funding" isFunding "funding way" ++
  checkOpt fs "scripts" isScripts "record of strings" ++
  checkOpt fs "config" isObjectLike "object" ++
  checkOpt fs "dependencies" isDependency "record of version strings" ++
  checkOpt fs "devDependencies" isDependency "record of version strings" ++
  checkOpt fs "optionalDependencies" isDependency "record of version strings" ++
  checkOpt fs "peerDependencies" isDependency "record of version strings" ++
  checkOpt fs "peerDependenciesMeta" isPeerDependenciesMeta
    "record of peer dependency metadata" ++
  checkOpt fs "bundledDependencies" isBundledDependencies
    "boolean or array of string" ++
  checkOpt fs "resolutions" isObjectLike "object" ++
  checkOpt fs "overrides" isObjectLike "object" ++
  checkOpt fs "packageManager" isStr "string" ++
  checkOpt fs "engines" isEngines "record with node and version strings" ++
  checkOpt fs "engineStrict" isBool "boolean" ++
  checkOpt fs "os" isStrArray "array of string" ++
  checkOpt fs "cpu" isStrArray "array of string" ++
  checkOpt fs "private" isPrivate "boolean or string" ++
  checkOpt fs "publishConfig" isPublishConfig "record of strings" ++
  checkOpt fs "dist" isDist "dist record" ++
  checkOpt fs "readme" isStr "string" ++
  checkOpt fs "module" isStr "string" ++
  checkOpt fs "esnext" isEsnext "string or record of strings" ++
  checkOpt fs "workspaces" isWorkspaces "array of string or workspaces record" ++
  checkOpt fs "jspm" isJspm "any" ++
  checkOpt fs "eslintConfig" isObjectLike "object" ++
  checkOpt fs "prettier" isObjectLike "object" ++
  checkOpt fs "stylelint" isObjectLike "object" ++
  checkOpt fs "ava" isObjectLike "object" ++
  checkOpt fs "release" isObjectLike "object" ++
  checkOpt fs "jscpd" isObjectLike "object" ++
  scanUnknown fs

/-- Violations of an object document against `Package.Json`: the two
required fields first, then the optional fields, then unknown keys. -/
def validateFields (fs : List (String × JsonValue)) : List ShapeViolation :=
  checkRequiredString fs "name" ++
  (checkRequiredString fs "version" ++ validateOptional fs)

/-- The single entry point of the specification: collect every shape
violation of a candidate document against `Package.Json`; an empty list
means the document conforms. -/
def validate : JsonValue → List ShapeViolation
  | .obj fs => validateFields fs
  | _ => [⟨[], "object"⟩]

/-- The minimal valid manifest document. -/
def minimalDoc : JsonValue :=
  .obj [("name", .str "x"), ("version", .str "1.0.0")]

mutual

/-- Modelled from the claim wording, for comparison with the source
union: an exports value in which, at every recursion level, a value may
be a path, null, a condition record, or a fallback sequence whose
elements again range over the full union, including sequences. The
source instead types fallback elements as `PackageExportsEntry`, which
has no sequence alternative. -/
def claimedExportsValue : JsonValue → Bool
  | .str _ => true
  | .null => true
  | .obj fs => claimedConditionRecordFields fs
  | .arr es => claimedSequenceElems es
  | _ => false

/-- Condition records of the claimed union: keys are condition names,
values range over the claimed union. -/
def claimedConditionRecordFields : List (String × JsonValue) → Bool
  | [] => true
  | (k, v) :: rest =>
      decide (k ∈ exportsConditionKeys) && claimedExportsValue v &&
      claimedConditionRecordFields rest

/-- Fallback-sequence elements of the claimed union: they range over the
full claimed union, sequences included. -/
def claimedSequenceElems : List JsonValue → Bool
  | [] => true
  | e :: rest => claimedExportsValue e && claimedSequenceElems rest

end

/-- Modelled from the claim wording, for comparison with the source
union: the claimed shape of a condition-record value, a path, null, or a
fallback sequence, with no condition-record alternative. -/
def claimedConditionValue : JsonValue → Bool
  | .str _ => true
  | .null => true
  | .arr es => isPackageExportsFallbackElems es
  | _ => false

/-- A family of exports values of unbounded nesting depth, alternating
condition records and fallback sequences. -/
def deepExport : Nat → JsonValue
  | 0 => .str "./a.js"
  | n + 1 => .obj [("default", .arr [deepExport n])]

theorem lookupField_cons_ne (fs : List (String × JsonValue)) (k key : String)
    (v : JsonValue) (h : key ≠ k) :
    lookupField ((k, v) :: fs) key = lookupField fs key := by
  simp [lookupField, h]

theorem checkRequiredString_cons_ne (fs : List (String × JsonValue))
    (k key : String) (v : JsonValue) (h : key ≠ k) :
    checkRequiredString ((k, v) :: fs) key = checkRequiredString fs key := by
  simp [checkRequiredString, lookupField_cons_ne fs k key v h]

theorem checkOpt_cons_ne (fs : List (String × JsonValue)) (k key : String)
    (v : JsonValue) (p : JsonValue → Bool) (d : String) (h : key ≠ k) :
    checkOpt ((k, v) :: fs) key p d = checkOpt fs key p d := by
  simp [checkOpt, lookupField_cons_ne fs k key v h]

theorem scanUnknown_cons_recognized (fs : List (String × JsonValue))
    (k : String) (v : JsonValue) (h : k ∈ recognizedKeys) :
    scanUnknown ((k, v) :: fs) = scanUnknown fs := by
  simp [scanUnknown, h]

theorem validateOptional_cons_name (v : JsonValue)
    (fs : List (String × JsonValue)) :
    validateOptional (("name", v) :: fs) = validateOptional fs := by
  simp only [validateOptional]
  rw [scanUnknown_cons_recognized fs "name" v (by decide)]
  simp +decide only [checkOpt_cons_ne]

theorem validateOptional_cons_version (v : JsonValue)
    (fs : List (String × JsonValue)) :
    validateOptional (("version", v) :: fs) = validateOptional fs := by
  simp only [validateOptional]
  rw [scanUnknown_cons_recognized fs "version" v (by decide)]
  simp +decide only [checkOpt_cons_ne]

theorem checkRequiredString_cons_self_str (fs : List (String × JsonValue))
    (key s : String) :
    checkRequiredString ((key, JsonValue.str s) :: fs) key = [] := by
  simp [checkRequiredString, lookupField]

theorem checkRequiredString_eq_nil (fs : List (String × JsonValue))
    (key : String) (h : checkRequiredString fs key = []) :
    hasStringField fs key = true := by
  unfold checkRequiredString at h
  unfold hasStringField
  cases hl : lookupField fs key with
  | none => rw [hl] at h; simp at h
  | some v => rw [hl] at h; cases v <;> simp_all

/-- C1: a manifest document is valid only when it contains the required
string fields name and version, and every other top-level field is
optional: the minimal document with only name and version validates with
zero violations. -/
theorem name_version_required_minimal_valid :
    validate minimalDoc = [] ∧
    ∀ fs : List (String × JsonValue), validate (.obj fs) = [] →
      hasStringField fs "name" = true ∧ hasStringField fs "version" = true := by
  refine ⟨by decide, fun fs h => ?_⟩
  simp only [validate, validateFields, List.append_eq_nil] at h
  exact ⟨checkRequiredString_eq_nil fs "name" h.1,
    checkRequiredString_eq_nil fs "version" h.2.1⟩

theorem name_version_required_minimal_valid_witness :
    hasStringField [("name", JsonValue.str "x"),
      ("version", JsonValue.str "1.0.0")] "name" = true ∧
    hasStringField [("name", JsonValue.str "x"),
      ("version", JsonValue.str "1.0.0")] "version" = true :=
  name_version_required_minimal_valid.2
    [("name", JsonValue.str "x"), ("version", JsonValue.str "1.0.0")]
    (by decide)

/-- C2: a document missing name, or missing version, receives the
ShapeViolation of that missing required field, and the absence causes no
other violation: the violation list is, up to position, exactly the
missing-field violation plus the violations of the same document with
the field restored. -/
theorem missing_required_field_single_violation
    (fs : List (String × JsonValue)) (s : String) :
    (lookupField fs "name" = none →
      missingViolation "name" ∈ validate (.obj fs) ∧
      (validate (.obj fs)).Perm
        (missingViolation "name" ::
          validate (.obj (("name", JsonValue.str s) :: fs)))) ∧
    (lookupField fs "version" = none →
      missingViolation "version" ∈ validate (.obj fs) ∧
      (validate (.obj fs)).Perm
        (missingViolation "version" ::
          validate (.obj (("version", JsonValue.str s) :: fs)))) := by
  constructor
  · intro h
    have hA : checkRequiredString fs "name" = [missingViolation "name"] := by
      simp [checkRequiredString, h]
    have hL : validate (.obj fs) =
        missingViolation "name" ::
          (checkRequiredString fs "version" ++ validateOptional fs) := by
      simp [validate, validateFields, hA]
    have hR : validate (.obj (("name", JsonValue.str s) :: fs)) =
        checkRequiredString fs "version" ++ validateOptional fs := by
      simp only [validate, validateFields, checkRequiredString_cons_self_str,
        checkRequiredString_cons_ne fs "name" "version" (JsonValue.str s)
          (by decide),
        validateOptional_cons_name, List.nil_append]
    rw [hL, hR]
    exact ⟨List.mem_cons_self _ _, List.Perm.refl _⟩
  · intro h
    have hB : checkRequiredString fs "version" = [missingViolation "version"] := by
      simp [checkRequiredString, h]
    have hL : validate (.obj fs) =
        checkRequiredString fs "name" ++
          (missingViolation "version" :: validateOptional fs) := by
      simp [validate, validateFields, hB]
    have hR : validate (.obj (("version", JsonValue.str s) :: fs)) =
        checkRequiredString fs "name" ++ validateOptional fs := by
      simp only [validate, validateFields, checkRequiredString_cons_self_str,
        checkRequiredString_cons_ne fs "version" "name" (JsonValue.str s)
          (by decide),
        validateOptional_cons_version, List.nil_append]
    rw [hL, hR]
    exact ⟨List.mem_append_right _ (List.mem_cons_self _ _),
      List.perm_middle⟩

theorem missing_required_field_single_violation_witness :
    (missingViolation "name" ∈ validate (.obj []) ∧
      (validate (.obj [])).Perm
        (missingViolation "name" ::
          validate (.obj [("name", JsonValue.str "x")]))) ∧
    (missingViolation "version" ∈ validate (.obj []) ∧
      (validate (.obj [])).Perm
        (missingViolation "version" ::
          validate (.obj [("version", JsonValue.str "1.0.0")]))) :=
  ⟨(missing_required_field_single_violation [] "x").1 rfl,
   (missing_required_field_single_violation [] "1.0.0").2 rfl⟩

theorem isPackageExportsFallbackElems_eq_all (es : List JsonValue) :
    isPackageExportsFallbackElems es = es.all isPackageExportsEntry := by
  induction es with
  | nil => rfl
  | cons e rest ih => simp [isPackageExportsFallbackElems, List.all_cons, ih]

theorem isPackageExportsEntryObjectFields_eq_all
    (fs : List (String × JsonValue)) :
    isPackageExportsEntryObjectFields fs =
      fs.all (fun p => decide (p.1 ∈ exportsConditionKeys) &&
        isPackageExportsEntryOrFallback p.2) := by
  induction fs with
  | nil => rfl
  | cons p rest ih =>
      cases p
      simp [isPackageExportsEntryObjectFields, List.all_cons, ih, Bool.and_assoc]

theorem isExportsModuleMapFields_eq_all (fs : List (String × JsonValue)) :
    isExportsModuleMapFields fs =
      fs.all (fun p => isPackageExportsEntryOrFallback p.2) := by
  induction fs with
  | nil => rfl
  | cons p rest ih =>
      cases p
      simp [isExportsModuleMapFields, List.all_cons, ih]

theorem isExports_of_entry (v : JsonValue)
    (h : isPackageExportsEntry v = true) : isExports v = true := by
  cases v <;> simp_all [isPackageExportsEntry, isExports]

theorem isPackageExportsEntry_deepExport (n : Nat) :
    isPackageExportsEntry (deepExport n) = true := by
  induction n with
  | zero => rfl
  | succ n ih =>
      simp +decide [deepExport, isPackageExportsEntry,
        isPackageExportsEntryObjectFields, isPackageExportsEntryOrFallback,
        isPackageExportsFallbackElems, ih, exportsConditionKeys]

/-- C3 counterexample: the claim admits a fallback sequence as an element
of a fallback sequence, but the source types fallback elements as
`PackageExportsEntry`, which has no sequence alternative, so the nested
sequence `[["./a.js"]]` matches the claimed union yet is rejected by the
schema, and a document carrying it does not validate. -/
theorem exports_nested_sequence_rejected_cex :
    claimedExportsValue (.arr [.arr [.str "./a.js"]]) = true ∧
    isExports (.arr [.arr [.str "./a.js"]]) = false ∧
    validate (.obj [("name", .str "x"), ("version", .str "1.0.0"),
      ("exports", .arr [.arr [.str "./a.js"]])]) ≠ [] := by decide

/-- C3 amended: the exports union is recursive and supports arbitrary
nesting depth, a value at every level being a path, null, a condition
record, or a fallback sequence, but fallback-sequence elements range
only over paths, null, and condition records, not over sequences; the
unbounded depth comes from condition records whose values are again
sequences. -/
theorem exports_union_recursive :
    (∀ n : Nat, isExports (deepExport n) = true) ∧
    (∀ es : List JsonValue,
      isPackageExportsFallbackElems es = es.all isPackageExportsEntry) ∧
    isExports (.arr [.str "./a.js", .null,
      .obj [("node", .str "./b.js")]]) = true ∧
    isExports (.arr [.arr [.str "./a.js"]]) = false :=
  ⟨fun n => isExports_of_entry _ (isPackageExportsEntry_deepExport n),
    isPackageExportsFallbackElems_eq_all, by decide, by decide⟩

/-- C4 counterexample: the record whose `require` key holds the condition
record with `default` set to a path is accepted by the schema, yet that
value is neither a path, nor null, nor a fallback sequence, so the
claimed characterization of accepted condition-record values is false at
this input. -/
theorem exports_condition_value_claim_cex :
    isExports (.obj [("require", .obj [("default", .str "./x.js")])]) = true ∧
    claimedConditionValue (.obj [("default", .str "./x.js")]) = false := by
  decide

/-- C4 amended: every exports value that is a bare string or null is
accepted, and a record whose keys are among the condition names is
accepted iff each present value independently satisfies the recursive
union of paths, null, condition records, and fallback sequences,
embodied by `isPackageExportsEntryOrFallback`. -/
theorem exports_condition_record_values :
    (∀ s : String, isExports (.str s) = true) ∧
    isExports .null = true ∧
    (∀ fs : List (String × JsonValue),
      fs.all (fun p => decide (p.1 ∈ exportsConditionKeys)) = true →
      (isExports (.obj fs) = true ↔
        ∀ p ∈ fs, isPackageExportsEntryOrFallback p.2 = true)) := by
  refine ⟨fun s => rfl, rfl, fun fs hk => ?_⟩
  have hdef : isExports (.obj fs) =
      (isExportsModuleMapFields fs ||
        isPackageExportsEntryObjectFields fs) := rfl
  rw [hdef, isExportsModuleMapFields_eq_all,
    isPackageExportsEntryObjectFields_eq_all, Bool.or_eq_true]
  constructor
  · intro h p hp
    rcases h with h1 | h1
    · exact List.all_eq_true.mp h1 p hp
    · have h2 := List.all_eq_true.mp h1 p hp
      rw [Bool.and_eq_true] at h2
      exact h2.2
  · intro h
    exact Or.inl (List.all_eq_true.mpr h)

theorem exports_condition_record_values_witness :
    isExports (.obj [("require", JsonValue.str "./r.js"),
      ("default", JsonValue.null)]) = true ↔
    ∀ p ∈ [("require", JsonValue.str "./r.js"),
      ("default", JsonValue.null)],
      isPackageExportsEntryOrFallback p.2 = true :=
  exports_condition_record_values.2.2 _ (by decide)

/-- C5 counterexample: the index signature of a `peerDependenciesMeta`
entry types extra properties as string or boolean, so the entry with
`optional` set to true and an extra key holding the number 42 is
rejected, although the claim calls every extra value acceptable, and a
document carrying it does not validate. -/
theorem peer_meta_arbitrary_extra_claim_cex :
    isPeerDependenciesMetaEntry
      (.obj [("optional", .bool true), ("foo", .num 42)]) = false ∧
    validate (.obj [("name", .str "x"), ("version", .str "1.0.0"),
      ("peerDependenciesMeta",
        .obj [("soy-milk", .obj [("optional", .bool true),
          ("foo", .num 42)])])]) ≠ [] := by decide

/-- C5 amended: every `peerDependenciesMeta` entry must be a record in
which `optional` is present and boolean, a sub-record missing `optional`
being a violation, while other entries on the same sub-record must be
strings or booleans: the sub-record with `optional` true plus the extra
key `foo` bound to the string `bar` is accepted. -/
theorem peer_meta_optional_required :
    (∀ gs : List (String × JsonValue), lookupField gs "optional" = none →
      isPeerDependenciesMetaEntry (.obj gs) = false) ∧
    isPeerDependenciesMetaEntry
      (.obj [("optional", .bool true), ("foo", .str "bar")]) = true ∧
    validate (.obj [("name", .str "x"), ("version", .str "1.0.0"),
      ("peerDependenciesMeta",
        .obj [("soy-milk", .obj [("optional", .bool true),
          ("foo", .str "bar")])])]) = [] ∧
    validate (.obj [("name", .str "x"), ("version", .str "1.0.0"),
      ("peerDependenciesMeta", .obj [("soy-milk", .obj [])])]) ≠ [] := by
  refine ⟨fun gs h => ?_, by decide, by decide, by decide⟩
  simp [isPeerDependenciesMetaEntry, h]

theorem peer_meta_optional_required_witness :
    isPeerDependenciesMetaEntry (.obj []) = false :=
  peer_meta_optional_required.1 [] rfl

/-- C6: an `engines` record is valid iff it has a string `node` entry
and every entry is a string: a record without `node` is rejected, the
record binding only `node` is accepted, arbitrary additional
string-valued entries are permitted, and full documents behave
accordingly. -/
theorem engines_node_required :
    (∀ fs : List (String × JsonValue), lookupField fs "node" = none →
      isEngines (.obj fs) = false) ∧
    isEngines (.obj [("node", .str ">=18")]) = true ∧
    (∀ fs : List (String × JsonValue),
      hasStringField fs "node" = true →
      fs.all (fun p => isStr p.2) = true →
      isEngines (.obj fs) = true) ∧
    validate (.obj [("name", .str "x"), ("version", .str "1.0.0"),
      ("engines", .obj [("node", .str ">=18")])]) = [] ∧
    validate (.obj [("name", .str "x"), ("version", .str "1.0.0"),
      ("engines", .obj [("node", .str ">=18"),
        ("npm", .str ">=9")])]) = [] ∧
    validate (.obj [("name", .str "x"), ("version", .str "1.0.0"),
      ("engines", .obj [("npm", .str ">=9")])]) ≠ [] := by
  refine ⟨fun fs h => ?_, by decide, fun fs h1 h2 => ?_, by decide,
    by decide, by decide⟩
  · simp [isEngines, hasStringField, h]
  · simp [isEngines, h1, h2]

theorem engines_node_required_witness :
    isEngines (.obj []) = false ∧
    isEngines (.obj [("node", JsonValue.str ">=18"),
      ("npm", JsonValue.str ">=9")]) = true :=
  ⟨engines_node_required.1 [] rfl,
   engines_node_required.2.2.1
     [("node", JsonValue.str ">=18"), ("npm", JsonValue.str ">=9")]
     (by decide) (by decide)⟩

/-- C7: the dependency groups are open records, so a record all of whose
values are strings conforms whatever its package-name keys are, and a
document holding such records under `dependencies`, `devDependencies`,
`optionalDependencies`, and `peerDependencies` validates with no
violation. -/
theorem dependency_records_open :
    (∀ gs : List (String × JsonValue),
      gs.all (fun p => isStr p.2) = true → isDependency (.obj gs) = true) ∧
    validate (.obj [("name", .str "x"), ("version", .str "1.0.0"),
      ("dependencies", .obj [("@scope/weird.pkg!", .str "^1.0.0"),
        ("left-pad", .str "file:../left-pad")]),
      ("devDependencies", .obj [("an unusual key", .str "latest")]),
      ("optionalDependencies", .obj [("x", .str "1.x >=2.5.0")]),
      ("peerDependencies", .obj [("react", .str ">=16")])]) = [] := by
  refine ⟨fun gs h => ?_, by decide⟩
  simp [isDependency, h]

theorem dependency_records_open_witness :
    isDependency (.obj [("some totally unrecognized key",
      JsonValue.str "^2.0.0")]) = true :=
  dependency_records_open.1
    [("some totally unrecognized key", JsonValue.str "^2.0.0")] (by decide)

/-- C8: the schema recognizes the top-level fields `type`, an optional
string, and `man`, an optional string or sequence of strings: documents
carrying them with those shapes validate, and non-conforming values
under the same keys are violations. -/
theorem type_man_fields_recognized :
    validate (.obj [("name", .str "x"), ("version", .str "1.0.0"),
      ("type", .str "module")]) = [] ∧
    validate (.obj [("name", .str "x"), ("version", .str "1.0.0"),
      ("man", .str "./man/doc.1")]) = [] ∧
    validate (.obj [("name", .str "x"), ("version", .str "1.0.0"),
      ("man", .arr [.str "./man/foo.1", .str "./man/bar.1"])]) = [] ∧
    validate (.obj [("name", .str "x"), ("version", .str "1.0.0"),
      ("type", .num 1)]) ≠ [] ∧
    validate (.obj [("name", .str "x"), ("version", .str "1.0.0"),
      ("man", .bool true)]) ≠ [] := by decide

/-- C9: in the open records `scripts`, `engines`, `publishConfig`, and
the record form of `esnext`, every value must be a string: a non-string
value under any key, recognized or not, makes the record
non-conforming. -/
theorem open_records_string_valued
    (fs : List (String × JsonValue)) (k : String) (v : JsonValue)
    (hmem : (k, v) ∈ fs) (hv : isStr v = false) :
    isScripts (.obj fs) = false ∧ isEngines (.obj fs) = false ∧
    isPublishConfig (.obj fs) = false ∧ isEsnext (.obj fs) = false := by
  have hall : fs.all (fun p => isStr p.2) = false := by
    cases hA : fs.all (fun p => isStr p.2) with
    | false => rfl
    | true =>
        have h2 : isStr v = true := List.all_eq_true.mp hA (k, v) hmem
        rw [hv] at h2
        exact h2.symm
  exact ⟨by simp [isScripts, hall], by simp [isEngines, hall],
    by simp [isPublishConfig, hall], by simp [isEsnext, hall]⟩

theorem open_records_string_valued_witness :
    isScripts (.obj [("myHook", JsonValue.num 1)]) = false ∧
    isEngines (.obj [("myHook", JsonValue.num 1)]) = false ∧
    isPublishConfig (.obj [("myHook", JsonValue.num 1)]) = false ∧
    isEsnext (.obj [("myHook", JsonValue.num 1)]) = false :=
  open_records_string_valued [("myHook", JsonValue.num 1)] "myHook"
    (JsonValue.num 1) (List.mem_cons_self _ _) rfl

/-- C10: the record form of `bugs` requires both `url` and `email` as
strings: the bare-string form and the record with both fields conform,
while a record missing either field does not, and a document carrying
one does not validate. -/
theorem bugs_record_url_email_required (fs : List (String × JsonValue)) :
    (∀ s : String, isBugs (.str s) = true) ∧
    isBugs (.obj [("url", .str "https://x.example/issues"),
      ("email", .str "bugs@x.example")]) = true ∧
    (lookupField fs "url" = none → isBugs (.obj fs) = false) ∧
    (lookupField fs "email" = none → isBugs (.obj fs) = false) ∧
    validate (.obj [("name", .str "x"), ("version", .str "1.0.0"),
      ("bugs", .obj [("url", .str "https://x.example/issues")])]) ≠ [] := by
  refine ⟨fun s => rfl, by decide, fun h => ?_, fun h => ?_, by decide⟩
  · simp [isBugs, hasStringField, h]
  · simp [isBugs, hasStringField, h]

theorem bugs_record_url_email_required_witness :
    isBugs (.obj []) = false ∧
    isBugs (.obj [("url", JsonValue.str "https://x.example/issues")]) = false :=
  ⟨(bugs_record_url_email_required []).2.2.1 rfl,
   (bugs_record_url_email_required
     [("url", JsonValue.str "https://x.example/issues")]).2.2.2.1 rfl⟩

end Package
